import Mathlib

/-
  Verification development for the Dash dashboard application (app.py).

  The Python program loads a GeoJSON file into a table `df_points`
  (one row per feature), parses five date columns Update_1..Update_5
  with pandas `to_datetime(.., format='%d-%m-%Y', errors='coerce')`,
  builds a status color map, and serves chart callbacks
  (`display_page`, `update_dashboard`, `update_map_and_bar`).

  Strings are embedded as `List Char`; GeoJSON numbers and coordinates
  as `ℚ`/`Int`; pandas timestamps as a `Date` record (pandas nanosecond
  timestamps can only represent dates from 1677-09-22 to 2262-04-11, and
  `errors='coerce'` turns both malformed and out-of-range values into
  NaT, embedded as `none`).  Python exceptions are embedded with
  `Option`/`Except`.  Callbacks are embedded in state-passing style over
  the process-wide table so that the absence of mutation is a theorem
  rather than a convention.
-/

namespace DashApp

/-! ### Characters and digit strings -/

/-- Decimal digit test (code points 48..57). -/
def isDigitCh (c : Char) : Bool := 48 ≤ c.toNat && c.toNat ≤ 57

/-- Numeric value of a decimal digit character. -/
def digitVal (c : Char) : Nat := c.toNat - 48

/-- Value of a string of decimal digits, most significant first. -/
def digitsToNat (cs : List Char) : Nat := cs.foldl (fun a c => 10 * a + digitVal c) 0

/-! ### Dates

A calendar date, as produced by parsing with format '%d-%m-%Y'. -/

structure Date where
  year : Nat
  month : Nat
  day : Nat
deriving DecidableEq, Repr

/-- Sort key: for calendar dates (month < 100, day < 100) this is the
usual chronological order and is injective. -/
def Date.key (dt : Date) : Nat := dt.year * 10000 + dt.month * 100 + dt.day

/-- Chronological order on dates (the order pandas timestamps compare in). -/
def dateLE (a b : Date) : Prop := a.key ≤ b.key

instance : DecidableRel dateLE := fun a b => Nat.decLe a.key b.key

instance : IsRefl Date dateLE := ⟨fun a => Nat.le_refl a.key⟩

instance : IsTrans Date dateLE := ⟨fun _ _ _ h1 h2 => Nat.le_trans h1 h2⟩

instance : IsTotal Date dateLE := ⟨fun a b => Nat.le_total a.key b.key⟩

/-- Gregorian leap-year rule, as implemented by `datetime`. -/
def isLeap (y : Nat) : Bool := y % 4 == 0 && (y % 100 != 0 || y % 400 == 0)

/-- Number of days in a month, as implemented by `datetime`. -/
def daysInMonth (y m : Nat) : Nat :=
  if m = 2 then (if isLeap y then 29 else 28)
  else if m = 4 ∨ m = 6 ∨ m = 9 ∨ m = 11 then 30
  else 31

/-- A (year, month, day) triple `datetime(y, m, d)` accepts: year within
MINYEAR..MAXYEAR, month 1..12, day within the month. -/
def validDMY (y m d : Nat) : Bool :=
  1 ≤ y && y ≤ 9999 && 1 ≤ m && m ≤ 12 && 1 ≤ d && d ≤ daysInMonth y m

/-- Midnight of the date is representable as a pandas nanosecond
timestamp: between 1677-09-22 and 2262-04-11 inclusive. -/
def inTsBounds (dt : Date) : Bool :=
  16770922 ≤ dt.key && dt.key ≤ 22620411

/-! ### strptime component matchers for '%d-%m-%Y'

Each matcher embeds one field regex of the strptime implementation:
'%d' is `3[01]|[12]\d|0[1-9]|[1-9]| [1-9]`, '%m' is `1[0-2]|0[1-9]|[1-9]`,
'%Y' is four digits. -/

/-- Match the '%d' field: one digit 1-9, a space then a digit 1-9, or two
digits with value 01..31. -/
def dayComp : List Char → Option Nat
  | [c] => if isDigitCh c && 1 ≤ digitVal c then some (digitVal c) else none
  | [c1, c2] =>
      if c1 = ' ' then
        (if isDigitCh c2 && 1 ≤ digitVal c2 then some (digitVal c2) else none)
      else if isDigitCh c1 && isDigitCh c2 && 1 ≤ 10 * digitVal c1 + digitVal c2
          && 10 * digitVal c1 + digitVal c2 ≤ 31 then
        some (10 * digitVal c1 + digitVal c2)
      else none
  | _ => none

/-- Match the '%m' field: one digit 1-9 or two digits with value 01..12. -/
def monComp : List Char → Option Nat
  | [c] => if isDigitCh c && 1 ≤ digitVal c then some (digitVal c) else none
  | [c1, c2] =>
      if isDigitCh c1 && isDigitCh c2 && 1 ≤ 10 * digitVal c1 + digitVal c2
          && 10 * digitVal c1 + digitVal c2 ≤ 12 then
        some (10 * digitVal c1 + digitVal c2)
      else none
  | _ => none

/-- Match the '%Y' field: exactly four digits. -/
def yearComp (cs : List Char) : Option Nat :=
  if cs.length = 4 && cs.all isDigitCh then some (digitsToNat cs) else none

/-! ### Splitting a character list at a separator (Python `str.split(sep)`) -/

/-- Split at every occurrence of `c`, keeping empty pieces, like Python
`s.split('-')`. The result is always nonempty. -/
def splitOnChar (c : Char) : List Char → List (List Char)
  | [] => [[]]
  | x :: xs =>
      if x = c then [] :: splitOnChar c xs
      else
        match splitOnChar c xs with
        | [] => [[x]]
        | p :: ps => (x :: p) :: ps

/-- Concatenate pieces with the separator between them, the inverse of
`splitOnChar`. -/
def joinSep (c : Char) : List (List Char) → List Char
  | [] => []
  | [p] => p
  | p :: ps => p ++ c :: joinSep c ps

/-- Parse one cell with `pd.to_datetime(.., format='%d-%m-%Y',
errors='coerce')`: the string must decompose as day-dash-month-dash-year
matching the three field regexes, name a real calendar date, and fall in
the representable timestamp range; anything else coerces to NaT (`none`).
Since '%d' and '%m' matches never contain a dash and '%Y' is exactly the
final four characters, regex matching of the whole pattern agrees with
splitting the string on dashes into exactly three components. -/
def parseDMY (cs : List Char) : Option Date :=
  match splitOnChar '-' cs with
  | [a, b, c] =>
      match dayComp a, monComp b, yearComp c with
      | some d, some m, some y =>
          if validDMY y m d && inTsBounds ⟨y, m, d⟩ then some ⟨y, m, d⟩ else none
      | _, _, _ => none
  | _ => none

/-! ### The data model -/

/-- A raw JSON value found in an Update_i property: a string, or some
non-string value (numbers, booleans, objects all coerce to NaT). -/
inductive CellVal where
  | str (s : List Char)
  | other
deriving DecidableEq, Repr

/-- Feed one raw cell to the date parser: absent keys (`props.get`
returned None) and non-strings coerce to NaT. -/
def parseCell : Option CellVal → Option Date
  | some (.str s) => parseDMY s
  | _ => none

/-- The properties of a GeoJSON feature, restricted to the keys the
loader reads; `none` means the key is absent. -/
structure Props where
  NAMOBJ : Option (List Char)
  Status : Option Int
  Update_1 : Option CellVal
  Update_2 : Option CellVal
  Update_3 : Option CellVal
  Update_4 : Option CellVal
  Update_5 : Option CellVal
deriving DecidableEq, Repr

/-- A GeoJSON feature: a point geometry (coordinates[0] is the
longitude, coordinates[1] the latitude) plus properties. -/
structure Feature where
  lon : ℚ
  lat : ℚ
  props : Props
deriving DecidableEq, Repr

/-- A row of the intermediate `points` list, before date parsing. -/
structure RawRow where
  lon : ℚ
  lat : ℚ
  NAMOBJ : List Char
  Status : Int
  Update_1 : Option CellVal
  Update_2 : Option CellVal
  Update_3 : Option CellVal
  Update_4 : Option CellVal
  Update_5 : Option CellVal
deriving DecidableEq, Repr

/-- A row of `df_points`, after the five Update columns are parsed. -/
structure Row where
  lon : ℚ
  lat : ℚ
  NAMOBJ : List Char
  Status : Int
  Update_1 : Option Date
  Update_2 : Option Date
  Update_3 : Option Date
  Update_4 : Option Date
  Update_5 : Option Date
deriving DecidableEq, Repr

/-- The extraction loop body: one dict per feature, with
`props.get("NAMOBJ", "Unknown")` and `props.get("Status", 0)` defaults. -/
def rawRowOfFeature (f : Feature) : RawRow :=
  { lon := f.lon
    lat := f.lat
    NAMOBJ := f.props.NAMOBJ.getD "Unknown".toList
    Status := f.props.Status.getD 0
    Update_1 := f.props.Update_1
    Update_2 := f.props.Update_2
    Update_3 := f.props.Update_3
    Update_4 := f.props.Update_4
    Update_5 := f.props.Update_5 }

/-- The extraction loop over all features. -/
def pointsOf (fs : List Feature) : List RawRow := fs.map rawRowOfFeature

/-- The column-parsing loop `for i in range(1, 6): ...to_datetime...`,
collapsed row-wise: each of the five Update columns is parsed
independently, so applying the five column rewrites equals applying all
five parses to each row. -/
def parseUpdates (r : RawRow) : Row :=
  { lon := r.lon
    lat := r.lat
    NAMOBJ := r.NAMOBJ
    Status := r.Status
    Update_1 := parseCell r.Update_1
    Update_2 := parseCell r.Update_2
    Update_3 := parseCell r.Update_3
    Update_4 := parseCell r.Update_4
    Update_5 := parseCell r.Update_5 }

/-- The loaded table `df_points`, as a function of the input file's
feature list. -/
def df_points (fs : List Feature) : List Row := (pointsOf fs).map parseUpdates

/-- Column access `row[f"Update_{i}"]` for i in 1..5. -/
def updCol (i : Nat) (r : Row) : Option Date :=
  match i with
  | 1 => r.Update_1
  | 2 => r.Update_2
  | 3 => r.Update_3
  | 4 => r.Update_4
  | 5 => r.Update_5
  | _ => none

/-! ### Python integer parsing and decimal rendering -/

/-- Test for the whitespace characters Python `int(...)` strips from
both ends (space, tab, newline, carriage return, vertical tab, form
feed, by code point). -/
def pyWs (c : Char) : Bool :=
  c.toNat = 32 || c.toNat = 9 || c.toNat = 10 || c.toNat = 13
    || c.toNat = 11 || c.toNat = 12

/-- Digit-string check used by `pyInt`. -/
def allDigits (cs : List Char) : Bool := cs.all isDigitCh

/-- Python `int(s)` on a string: strip whitespace, optional sign, then a
nonempty run of decimal digits; anything else raises ValueError (`none`).
(Underscore digit grouping is not modelled.) -/
def pyInt (cs : List Char) : Option Int :=
  match ((cs.dropWhile pyWs).reverse.dropWhile pyWs).reverse with
  | [] => none
  | c :: ds =>
      if c = '-' then
        (if ds ≠ [] && allDigits ds then some (-(digitsToNat ds : Int)) else none)
      else if c = '+' then
        (if ds ≠ [] && allDigits ds then some (digitsToNat ds : Int) else none)
      else if allDigits (c :: ds) then some (digitsToNat (c :: ds) : Int)
      else none

/-- Decimal rendering of a natural number, most significant digit first. -/
def natChars (n : Nat) : List Char :=
  if h : n < 10 then [Char.ofNat (48 + n)]
  else natChars (n / 10) ++ [Char.ofNat (48 + n % 10)]
decreasing_by exact Nat.div_lt_self (Nat.lt_of_lt_of_le (by decide) (Nat.le_of_not_lt h)) (by decide)

/-- Left-pad with zeros to width `w` (strftime zero padding). -/
def padZeros (w : Nat) (cs : List Char) : List Char :=
  List.replicate (w - cs.length) '0' ++ cs

/-- strftime('%d-%m-%Y') rendering of a date, used for the slider marks. -/
def renderDMY (dt : Date) : List Char :=
  padZeros 2 (natChars dt.day) ++ '-' :: padZeros 2 (natChars dt.month)
    ++ '-' :: padZeros 4 (natChars dt.year)

/-- Python list indexing `l[i]`: non-negative indexes from the front,
negative indexes from the back, out of range raises IndexError (`none`). -/
def pyIndex {α : Type} (l : List α) (i : Int) : Option α :=
  if 0 ≤ i then l.get? i.toNat
  else if (-i).toNat ≤ l.length then l.get? (l.length - (-i).toNat) else none

/-- Boolean check that `p` is an initial segment of `l`
(Python `l.startswith(p)`). -/
def listStartsWith : List Char → List Char → Bool
  | [], _ => true
  | _ :: _, [] => false
  | p :: ps, x :: xs => p = x && listStartsWith ps xs

/-! ### URL routing (`display_page`) -/

/-- What `display_page` returns: the summary layout, a stage layout for
an integer, the "Invalid Page" heading (from the caught
IndexError/ValueError), or the "404 - Page Not Found" heading. -/
inductive PageOut where
  | summary
  | stageLayout (i : Int)
  | invalidPage
  | notFound
deriving DecidableEq, Repr

/-- The `display_page` callback: "/" and "/summary" give the summary
layout; a path starting with "/stage-" is split on every dash and piece 1
is fed to `int(...)` (IndexError and ValueError are caught and give the
"Invalid Page" heading); every other path gives the 404 heading. -/
def display_page (pathname : List Char) : PageOut :=
  if pathname = "/".toList ∨ pathname = "/summary".toList then .summary
  else if listStartsWith "/stage-".toList pathname then
    match (splitOnChar '-' pathname).get? 1 with
    | none => .invalidPage
    | some piece =>
        match pyInt piece with
        | some i => .stageLayout i
        | none => .invalidPage
  else .notFound

/-! ### Summary-page callback (`update_dashboard`) -/

/-- The category filter `df_points[df_points["NAMOBJ"].isin(selected)]`. -/
def filterByNamobj (df : List Row) (selected : List (List Char)) : List Row :=
  df.filter (fun r => decide (r.NAMOBJ ∈ selected))

/-- Column mean, as in `filtered_df["lat"].mean()`. -/
def meanQ (l : List ℚ) : ℚ := l.sum / (l.length : ℚ)

/-- Map center: the default (-7.9, 110.4) when the filtered frame is
empty, otherwise the column means of latitude and longitude. -/
def centerOf (filtered : List Row) : ℚ × ℚ :=
  if filtered.isEmpty then (-79 / 10, 1104 / 10)
  else (meanQ (filtered.map Row.lat), meanQ (filtered.map Row.lon))

/-- Group-by size: one (key, count) pair per distinct key, as produced by
`groupby(...).size()` and by `value_counts()`. Pandas orders the result
(by key, or by descending count); the order is presentational and the
embedding keeps the first-occurrence content instead. -/
def countsBy {K : Type} [DecidableEq K] (keys : List K) : List (K × Nat) :=
  keys.dedup.map (fun k => (k, keys.count k))

/-- The data content of the summary page's three outputs: the map figure
(its points and center), the status bar chart's counts, and the progress
bar charts' counts. Colors and styling are presentational and omitted. -/
structure SummaryOut where
  center : ℚ × ℚ
  mapRows : List Row
  statusBar : List ((List Char × Int) × Nat)
  progress : List (List ((List Char × Option Date) × Nat))
deriving DecidableEq, Repr

/-- The `update_dashboard` callback in state-passing form: the first
component of the result is the process-wide table after the call (the
callback only reads `df_points`, so it is returned as received). -/
def update_dashboard (st : List Row) (selected : List (List Char)) :
    List Row × SummaryOut :=
  let filtered := filterByNamobj st selected
  let statusBar := countsBy (filtered.map (fun r => (r.NAMOBJ, r.Status)))
  let progress := ([1, 2, 3, 4, 5] : List Nat).filterMap (fun i =>
    let stage_df := filtered.filter (fun r => (updCol i r).isSome)
    if stage_df.isEmpty then none
    else some (countsBy (stage_df.map (fun r => (r.NAMOBJ, updCol i r)))))
  (st, ⟨centerOf filtered, filtered, statusBar, progress⟩)

/-! ### Stage-page callback (`update_map_and_bar`) -/

/-- The rows whose Update_i is not NaT: `df_points[df_points[col].notna()]`. -/
def stageRows (df : List Row) (i : Nat) : List Row :=
  df.filter (fun r => (updCol i r).isSome)

/-- `sorted(stage_df[col].dropna().unique())`: the distinct completion
dates of the stage, in chronological order. -/
def uniqueSortedDates (df : List Row) (i : Nat) : List Date :=
  List.insertionSort dateLE ((stageRows df i).filterMap (updCol i)).dedup

/-- The selection
`unique_dates[slider_index] if slider_index < len(unique_dates) else unique_dates[-1]`. -/
def dateSelected (dates : List Date) (idx : Int) : Option Date :=
  if idx < (dates.length : Int) then pyIndex dates idx else pyIndex dates (-1)

/-- The date filter `stage_df[stage_df[col] <= date_selected]`. -/
def filterUpTo (df : List Row) (i : Nat) (d : Date) : List Row :=
  (stageRows df i).filter (fun r =>
    match updCol i r with
    | some d2 => decide (dateLE d2 d)
    | none => false)

/-- The data content of a stage page's outputs: slider min/max, the
marks, the map traces (one row group per distinct NAMOBJ) and the bar
chart's counts. Colors and styling are presentational and omitted. -/
structure StageOut where
  sliderMin : Int
  sliderMax : Int
  marks : List (Nat × List Char)
  mapGroups : List (List Char × List Row)
  bar : List (List Char × Nat)
deriving DecidableEq, Repr

/-- Result of one `update_map_and_bar` call: the empty-stage early
return `0, 1, {}, {}, {}`, a normal output, or a raised IndexError (a
negative slider value far enough below -len wraps out of range). -/
inductive StageRes where
  | emptyOut
  | ok (o : StageOut)
  | err
deriving DecidableEq, Repr

/-- The `update_map_and_bar` callback in state-passing form, for the
stage given by the closed-over `stage` argument. -/
def update_map_and_bar (st : List Row) (stage : Nat) (slider_value : Int) :
    List Row × StageRes :=
  let stage_df := stageRows st stage
  if stage_df.isEmpty then (st, .emptyOut)
  else
    let dates := uniqueSortedDates st stage
    let marks := dates.enum.map (fun p => (p.1, renderDMY p.2))
    match dateSelected dates slider_value with
    | none => (st, .err)
    | some dsel =>
        let filtered := filterUpTo st stage dsel
        let namobjs := (filtered.map Row.NAMOBJ).dedup
        let groups := namobjs.map (fun nm =>
          (nm, filtered.filter (fun r => decide (r.NAMOBJ = nm))))
        (st, .ok ⟨0, (dates.length : Int) - 1, marks, groups,
          countsBy (filtered.map Row.NAMOBJ)⟩)

/-! ### Startup color-map construction -/

/-- The exception raised while building `status_color_map`: TypeError
(`range` applied to the NaN max of an empty column), ZeroDivisionError
(`i / status_range` with all statuses equal), or IndexError
(`viridis_colors[status]` out of range). -/
inductive PyErr where
  | typeErr
  | zeroDiv
  | indexErr
deriving DecidableEq, Repr

/-- Pandas `.max()` of an integer column; NaN (`none`) when empty. -/
def listMaxI : List Int → Option Int
  | [] => none
  | x :: xs => some (xs.foldl max x)

/-- Pandas `.min()` of an integer column; NaN (`none`) when empty. -/
def listMinI : List Int → Option Int
  | [] => none
  | x :: xs => some (xs.foldl min x)

/-- The dict comprehension
`{status: viridis_colors[status] for status in range(min, max + 1)}`:
each status indexes the sampled color list with Python indexing, and the
first out-of-range index raises IndexError. -/
def collectColors (viridis : List ℚ) : List Int → Except PyErr (List (Int × ℚ))
  | [] => .ok []
  | s :: rest =>
      match pyIndex viridis s with
      | none => .error .indexErr
      | some c =>
          match collectColors viridis rest with
          | .error e => .error e
          | .ok m => .ok ((s, c) :: m)

/-- The startup construction of `status_color_map` (lines 37-39).  A
sampled color is embedded as its sampling fraction `i / status_range`
(`plotly.colors.sample_colorscale` maps each fraction to an RGB string).
On an empty table `.max()` is NaN and `range(status_range + 1)` raises
TypeError; when all statuses are equal the fraction `0 / 0` raises
ZeroDivisionError. -/
def buildStatusColorMap (df : List Row) : Except PyErr (List (Int × ℚ)) :=
  match listMaxI (df.map Row.Status), listMinI (df.map Row.Status) with
  | some mx, some mn =>
      let rng : Int := mx - mn
      if rng = 0 then .error .zeroDiv
      else
        let viridis : List ℚ := (List.range (rng.toNat + 1)).map
          (fun i : Nat => (i : ℚ) / (rng : ℚ))
        collectColors viridis
          ((List.range (rng.toNat + 1)).map (fun k : Nat => mn + (k : Int)))
  | _, _ => .error .typeErr

/-! ### Specification-side definitions

These definitions follow the wording of the specification and the
claims, to be compared with the definitions embedded from the source. -/

/-- The string is the decimal numeral for `n`: nonempty, all digits,
with value `n`. -/
def digitsRepr (cs : List Char) (n : Nat) : Prop :=
  cs ≠ [] ∧ (∀ ch ∈ cs, isDigitCh ch = true) ∧ digitsToNat cs = n

/-- The string is a day field of the '%d-%m-%Y' format with value `n`:
one or two digits (or a space then one digit) naming a day 1..31. -/
def dayRepr (a : List Char) (n : Nat) : Prop :=
  1 ≤ n ∧ n ≤ 31 ∧
    ((digitsRepr a n ∧ a.length ≤ 2) ∨ (∃ ch, a = [' ', ch] ∧ digitsRepr [ch] n))

/-- The string is a month field with value `n`: one or two digits naming
a month 1..12. -/
def monRepr (b : List Char) (n : Nat) : Prop :=
  1 ≤ n ∧ n ≤ 12 ∧ digitsRepr b n ∧ b.length ≤ 2

/-- The string is a year field with value `n`: exactly four digits. -/
def yearRepr (c : List Char) (n : Nat) : Prop :=
  digitsRepr c n ∧ c.length = 4

/-- The string matches the day-month-year format '%d-%m-%Y' and denotes
the calendar date `dt`. -/
def isDMY (cs : List Char) (dt : Date) : Prop :=
  ∃ a b c, cs = a ++ '-' :: (b ++ '-' :: c) ∧
    dayRepr a dt.day ∧ monRepr b dt.month ∧ yearRepr c dt.year ∧
    validDMY dt.year dt.month dt.day = true

/-- Decimal rendering of an integer, as Python `str(i)` produces it. -/
def intChars (i : Int) : List Char :=
  if i < 0 then '-' :: natChars (-i).toNat else natChars i.toNat

/-- Row construction as the specification words it: one row per feature,
longitude and latitude from the geometry, NAMOBJ defaulting to
"Unknown", Status defaulting to 0, and the five milestone dates parsed
from the properties. -/
def specRowOfFeature (f : Feature) : Row :=
  { lon := f.lon
    lat := f.lat
    NAMOBJ := f.props.NAMOBJ.getD "Unknown".toList
    Status := f.props.Status.getD 0
    Update_1 := parseCell f.props.Update_1
    Update_2 := parseCell f.props.Update_2
    Update_3 := parseCell f.props.Update_3
    Update_4 := parseCell f.props.Update_4
    Update_5 := parseCell f.props.Update_5 }

/-! ### Concrete data for witnesses and counterexamples -/

/-- A sample row: site "A", status 1, one stage-1 completion date. -/
def rowA : Row :=
  ⟨0, 0, "A".toList, 1, some ⟨2021, 3, 5⟩, none, none, none, none⟩

/-- A sample row: site "B", status 2, a later stage-1 completion date. -/
def rowB : Row :=
  ⟨2, 4, "B".toList, 2, some ⟨2021, 4, 6⟩, none, none, none, none⟩

/-- A sample row: site "B", status 0, no completion dates. -/
def rowC : Row :=
  ⟨6, 8, "B".toList, 0, none, none, none, none, none⟩

/-- A two-row table whose statuses are 1 and 2 (both positive). -/
def dfPos : List Row := [rowA, rowB]

/-- A three-row sample table. -/
def dfSample : List Row := [rowA, rowB, rowC]

/-- A two-row table whose statuses are 1 and 0 (min status 0). -/
def dfMix : List Row := [rowA, rowC]

/-- A sample feature with all properties present. -/
def featA : Feature :=
  ⟨1, 2, ⟨some "A".toList, some 3, some (.str "05-03-2021".toList),
    some .other, none, none, some (.str "junk".toList)⟩⟩

/-- A sample feature with no properties present. -/
def featB : Feature := ⟨3, 4, ⟨none, none, none, none, none, none, none⟩⟩

/-! ### Helper lemmas: digits, rendering, Python int, splitting -/

theorem digit_not_pyWs {c : Char} (h : isDigitCh c = true) : pyWs c = false := by
  simp only [isDigitCh, Bool.and_eq_true, decide_eq_true_eq] at h
  simp only [pyWs, Bool.or_eq_false_iff, decide_eq_false_iff_not]
  omega

theorem digit_ne_dash {c : Char} (h : isDigitCh c = true) : c ≠ '-' := by
  simp only [isDigitCh, Bool.and_eq_true, decide_eq_true_eq] at h
  intro hc
  subst hc
  simp at h

theorem digit_ne_plus {c : Char} (h : isDigitCh c = true) : c ≠ '+' := by
  simp only [isDigitCh, Bool.and_eq_true, decide_eq_true_eq] at h
  intro hc
  subst hc
  simp at h

theorem charOfNat_digit_toNat {k : Nat} (hk : k ≤ 9) :
    (Char.ofNat (48 + k)).toNat = 48 + k := by
  interval_cases k <;> decide

theorem digitsToNat_snoc (xs : List Char) (c : Char) :
    digitsToNat (xs ++ [c]) = 10 * digitsToNat xs + digitVal c := by
  simp [digitsToNat, List.foldl_append]

theorem natChars_spec (n : Nat) :
    natChars n ≠ [] ∧ (∀ ch ∈ natChars n, isDigitCh ch = true) ∧
      digitsToNat (natChars n) = n := by
  induction n using Nat.strong_induction_on with
  | _ n ih =>
    rw [natChars]
    by_cases h : n < 10
    · have h9 : n ≤ 9 := by omega
      simp only [h, dif_pos]
      refine ⟨by simp, ?_, ?_⟩
      · intro ch hch
        simp only [List.mem_singleton] at hch
        subst hch
        simp [isDigitCh, charOfNat_digit_toNat h9]
        omega
      · simp [digitsToNat, digitVal, charOfNat_digit_toNat h9]
    · have hlt : n / 10 < n := Nat.div_lt_self (by omega) (by decide)
      obtain ⟨ih1, ih2, ih3⟩ := ih (n / 10) hlt
      have h9 : n % 10 ≤ 9 := by omega
      simp only [h, dif_neg, not_false_iff]
      refine ⟨by simp, ?_, ?_⟩
      · intro ch hch
        rcases List.mem_append.1 hch with hch | hch
        · exact ih2 ch hch
        · simp only [List.mem_singleton] at hch
          subst hch
          simp [isDigitCh, charOfNat_digit_toNat h9]
          omega
      · rw [digitsToNat_snoc, ih3, digitVal, charOfNat_digit_toNat h9]
        omega

theorem dropWhile_eq_self_of_no (p : Char → Bool) (cs : List Char)
    (h : ∀ ch ∈ cs, p ch = false) : cs.dropWhile p = cs := by
  cases cs with
  | nil => rfl
  | cons x xs => simp [List.dropWhile, h x (List.mem_cons_self x xs)]

theorem pyInt_of_digits (cs : List Char) (hne : cs ≠ [])
    (hd : ∀ ch ∈ cs, isDigitCh ch = true) :
    pyInt cs = some (digitsToNat cs : Int) := by
  have hws : ∀ ch ∈ cs, pyWs ch = false := fun ch hch => digit_not_pyWs (hd ch hch)
  have h1 : cs.dropWhile pyWs = cs := dropWhile_eq_self_of_no _ _ hws
  have h2 : cs.reverse.dropWhile pyWs = cs.reverse :=
    dropWhile_eq_self_of_no _ _ (fun ch hch => hws ch (List.mem_reverse.1 hch))
  obtain ⟨c, ds, rfl⟩ := List.exists_cons_of_ne_nil hne
  have hc : isDigitCh c = true := hd c (List.mem_cons_self c ds)
  simp only [pyInt, h1, h2, List.reverse_reverse]
  simp only [digit_ne_dash hc, if_false, digit_ne_plus hc, if_false]
  have : allDigits (c :: ds) = true := List.all_eq_true.2 hd
  simp [this]

theorem splitOnChar_cons_sep (c : Char) (xs : List Char) :
    splitOnChar c (c :: xs) = [] :: splitOnChar c xs := by
  simp [splitOnChar]

theorem splitOnChar_cons_ne {c x : Char} (xs : List Char) (hx : x ≠ c)
    {p : List Char} {ps : List (List Char)} (h : splitOnChar c xs = p :: ps) :
    splitOnChar c (x :: xs) = (x :: p) :: ps := by
  simp only [splitOnChar, hx, if_false, h]

theorem splitOnChar_ne_nil (c : Char) (l : List Char) : splitOnChar c l ≠ [] := by
  cases l with
  | nil => simp [splitOnChar]
  | cons x xs =>
    simp only [splitOnChar]
    split
    · simp
    · split <;> simp

theorem splitOnChar_no_sep {c : Char} {l : List Char} (h : c ∉ l) :
    splitOnChar c l = [l] := by
  induction l with
  | nil => rfl
  | cons x xs ih =>
    have hx : x ≠ c := fun hxc => h (hxc ▸ List.mem_cons_self x xs)
    have hxs : c ∉ xs := fun hc => h (List.mem_cons_of_mem x hc)
    simp only [splitOnChar, hx, if_false, ih hxs]

theorem splitOnChar_append {c : Char} {l : List Char} (r : List Char) (h : c ∉ l) :
    splitOnChar c (l ++ c :: r) = l :: splitOnChar c r := by
  induction l with
  | nil => simp [splitOnChar]
  | cons x xs ih =>
    have hx : x ≠ c := fun hxc => h (hxc ▸ List.mem_cons_self x xs)
    have hxs : c ∉ xs := fun hc => h (List.mem_cons_of_mem x hc)
    simp only [List.cons_append, splitOnChar, hx, if_false, List.append_eq, ih hxs]

theorem joinSep_splitOnChar (c : Char) (l : List Char) :
    joinSep c (splitOnChar c l) = l := by
  induction l with
  | nil => rfl
  | cons x xs ih =>
    obtain ⟨p, ps, hps⟩ := List.exists_cons_of_ne_nil (splitOnChar_ne_nil c xs)
    by_cases hx : x = c
    · subst hx
      rw [splitOnChar_cons_sep]
      rw [hps] at ih ⊢
      simp only [joinSep, List.nil_append]
      rw [ih]
    · rw [splitOnChar_cons_ne xs hx hps]
      rw [hps] at ih
      cases ps with
      | nil => simp only [joinSep] at ih ⊢; rw [ih]
      | cons q qs =>
        simp only [joinSep, List.cons_append] at ih ⊢
        rw [ih]

theorem splitOnChar_parts_no_sep (c : Char) (l : List Char) :
    ∀ p ∈ splitOnChar c l, c ∉ p := by
  induction l with
  | nil =>
    intro p hp
    simp only [splitOnChar, List.mem_singleton] at hp
    subst hp
    simp
  | cons x xs ih =>
    intro p hp
    by_cases hx : x = c
    · subst hx
      rw [splitOnChar_cons_sep, List.mem_cons] at hp
      rcases hp with hp | hp
      · subst hp; simp
      · exact ih p hp
    · obtain ⟨q, qs, hqs⟩ := List.exists_cons_of_ne_nil (splitOnChar_ne_nil c xs)
      rw [splitOnChar_cons_ne xs hx hqs, List.mem_cons] at hp
      rcases hp with hp | hp
      · subst hp
        intro hc
        rcases List.mem_cons.1 hc with hc | hc
        · exact hx hc.symm
        · exact ih q (by rw [hqs]; exact List.mem_cons_self q qs) hc
      · exact ih p (by rw [hqs]; exact List.mem_cons_of_mem q hp)

/-! ### Helper lemmas: the '%d-%m-%Y' field matchers -/

theorem isDigitCh_toNat {c : Char} (h : isDigitCh c = true) :
    48 ≤ c.toNat ∧ c.toNat ≤ 57 := by
  simpa [isDigitCh, Bool.and_eq_true, decide_eq_true_eq] using h

theorem digitVal_le_9 {c : Char} (h : isDigitCh c = true) : digitVal c ≤ 9 := by
  obtain ⟨h1, h2⟩ := isDigitCh_toNat h
  unfold digitVal
  omega

theorem digitsToNat_single (c : Char) : digitsToNat [c] = digitVal c := by
  simp [digitsToNat]

theorem digitsToNat_pair (c1 c2 : Char) :
    digitsToNat [c1, c2] = 10 * digitVal c1 + digitVal c2 := by
  simp [digitsToNat]

theorem space_not_digit : isDigitCh ' ' = false := by decide

theorem digitsRepr_no_dash {cs : List Char} {n : Nat} (h : digitsRepr cs n) :
    '-' ∉ cs :=
  fun hc => digit_ne_dash (h.2.1 _ hc) rfl

theorem dayComp_iff (a : List Char) (n : Nat) :
    dayComp a = some n ↔ dayRepr a n := by
  match a with
  | [] =>
    simp [dayComp, dayRepr, digitsRepr]
  | [c] =>
    simp only [dayComp]
    constructor
    · intro h
      split at h
      next hcond =>
        simp only [Bool.and_eq_true, decide_eq_true_eq] at hcond
        obtain ⟨hdig, hge⟩ := hcond
        obtain rfl : digitVal c = n := by injection h
        refine ⟨hge, Nat.le_trans (digitVal_le_9 hdig) (by omega), Or.inl ⟨⟨by simp, ?_, digitsToNat_single c⟩, by simp⟩⟩
        intro ch hch
        rw [List.mem_singleton] at hch
        subst hch
        exact hdig
      next => exact absurd h (by simp)
    · rintro ⟨h1, _, h3 | h3⟩
      · obtain ⟨⟨_, hdig, hval⟩, _⟩ := h3
        have hc : isDigitCh c = true := hdig c (List.mem_singleton_self c)
        rw [digitsToNat_single] at hval
        rw [if_pos (show (isDigitCh c && decide (1 ≤ digitVal c)) = true by
              simp only [Bool.and_eq_true, decide_eq_true_eq]; exact ⟨hc, by omega⟩), hval]
      · obtain ⟨ch, hch, _⟩ := h3
        simp at hch
  | [c1, c2] =>
    simp only [dayComp]
    by_cases hsp : c1 = ' '
    · subst hsp
      rw [if_pos rfl]
      constructor
      · intro h
        split at h
        next hcond =>
          simp only [Bool.and_eq_true, decide_eq_true_eq] at hcond
          obtain ⟨hdig, hge⟩ := hcond
          obtain rfl : digitVal c2 = n := by injection h
          refine ⟨hge, Nat.le_trans (digitVal_le_9 hdig) (by omega),
            Or.inr ⟨c2, rfl, by simp, ?_, digitsToNat_single c2⟩⟩
          intro ch hch
          rw [List.mem_singleton] at hch
          subst hch
          exact hdig
        next => exact absurd h (by simp)
      · rintro ⟨h1, _, h3 | h3⟩
        · obtain ⟨⟨_, hdig, _⟩, _⟩ := h3
          have := hdig ' ' (by simp)
          rw [space_not_digit] at this
          exact absurd this (by simp)
        · obtain ⟨ch, hch, hne, hdig, hval⟩ := h3
          injection hch with hh hh'
          injection hh' with hh2 hh3
          subst hh2
          have hc : isDigitCh c2 = true := hdig c2 (List.mem_singleton_self c2)
          rw [digitsToNat_single] at hval
          rw [if_pos (show (isDigitCh c2 && decide (1 ≤ digitVal c2)) = true by
                simp only [Bool.and_eq_true, decide_eq_true_eq]; exact ⟨hc, by omega⟩), hval]
    · rw [if_neg hsp]
      constructor
      · intro h
        split at h
        next hcond =>
          simp only [Bool.and_eq_true, decide_eq_true_eq] at hcond
          obtain ⟨⟨⟨hd1, hd2⟩, hge⟩, hle⟩ := hcond
          obtain rfl : 10 * digitVal c1 + digitVal c2 = n := by injection h
          refine ⟨hge, hle, Or.inl ⟨⟨by simp, ?_, digitsToNat_pair c1 c2⟩, by simp⟩⟩
          intro ch hch
          rcases List.mem_cons.1 hch with hch | hch
          · subst hch; exact hd1
          · rw [List.mem_singleton] at hch; subst hch; exact hd2
        next => exact absurd h (by simp)
      · rintro ⟨h1, h2, h3 | h3⟩
        · obtain ⟨⟨_, hdig, hval⟩, _⟩ := h3
          have hc1 : isDigitCh c1 = true := hdig c1 (by simp)
          have hc2 : isDigitCh c2 = true := hdig c2 (by simp)
          rw [digitsToNat_pair] at hval
          rw [if_pos (by
                simp only [Bool.and_eq_true, decide_eq_true_eq]; exact ⟨⟨⟨hc1, hc2⟩, by omega⟩, by omega⟩), hval]
        · obtain ⟨ch, hch, _⟩ := h3
          have : c1 = ' ' := by injection hch
          exact absurd this hsp
  | c1 :: c2 :: c3 :: t =>
    constructor
    · intro h
      exact absurd h (by simp [dayComp])
    · rintro ⟨_, _, h3 | h3⟩
      · obtain ⟨_, hlen⟩ := h3
        simp at hlen
      · obtain ⟨ch, hch, _⟩ := h3
        have := congrArg List.length hch
        simp at this

theorem monComp_iff (b : List Char) (n : Nat) :
    monComp b = some n ↔ monRepr b n := by
  match b with
  | [] =>
    simp [monComp, monRepr, digitsRepr]
  | [c] =>
    simp only [monComp]
    constructor
    · intro h
      split at h
      next hcond =>
        simp only [Bool.and_eq_true, decide_eq_true_eq] at hcond
        obtain ⟨hdig, hge⟩ := hcond
        obtain rfl : digitVal c = n := by injection h
        refine ⟨hge, Nat.le_trans (digitVal_le_9 hdig) (by omega),
          ⟨by simp, ?_, digitsToNat_single c⟩, by simp⟩
        intro ch hch
        rw [List.mem_singleton] at hch
        subst hch
        exact hdig
      next => exact absurd h (by simp)
    · rintro ⟨h1, _, ⟨_, hdig, hval⟩, _⟩
      have hc : isDigitCh c = true := hdig c (List.mem_singleton_self c)
      rw [digitsToNat_single] at hval
      rw [if_pos (show (isDigitCh c && decide (1 ≤ digitVal c)) = true by
            simp only [Bool.and_eq_true, decide_eq_true_eq]; exact ⟨hc, by omega⟩), hval]
  | [c1, c2] =>
    simp only [monComp]
    constructor
    · intro h
      split at h
      next hcond =>
        simp only [Bool.and_eq_true, decide_eq_true_eq] at hcond
        obtain ⟨⟨⟨hd1, hd2⟩, hge⟩, hle⟩ := hcond
        obtain rfl : 10 * digitVal c1 + digitVal c2 = n := by injection h
        refine ⟨hge, hle, ⟨by simp, ?_, digitsToNat_pair c1 c2⟩, by simp⟩
        intro ch hch
        rcases List.mem_cons.1 hch with hch | hch
        · subst hch; exact hd1
        · rw [List.mem_singleton] at hch; subst hch; exact hd2
      next => exact absurd h (by simp)
    · rintro ⟨h1, h2, ⟨_, hdig, hval⟩, _⟩
      have hc1 : isDigitCh c1 = true := hdig c1 (by simp)
      have hc2 : isDigitCh c2 = true := hdig c2 (by simp)
      rw [digitsToNat_pair] at hval
      rw [if_pos (by
            simp only [Bool.and_eq_true, decide_eq_true_eq]; exact ⟨⟨⟨hc1, hc2⟩, by omega⟩, by omega⟩), hval]
  | c1 :: c2 :: c3 :: t =>
    constructor
    · intro h
      exact absurd h (by simp [monComp])
    · rintro ⟨_, _, _, hlen⟩
      simp at hlen

theorem yearComp_iff (c : List Char) (n : Nat) :
    yearComp c = some n ↔ yearRepr c n := by
  simp only [yearComp]
  constructor
  · intro h
    split at h
    next hcond =>
      simp only [Bool.and_eq_true, decide_eq_true_eq, List.all_eq_true] at hcond
      obtain ⟨hlen, hdig⟩ := hcond
      obtain rfl : digitsToNat c = n := by injection h
      exact ⟨⟨by intro hc; subst hc; simp at hlen, hdig, rfl⟩, hlen⟩
    next => exact absurd h (by simp)
  · rintro ⟨⟨hne, hdig, hval⟩, hlen⟩
    rw [if_pos (by
          simp only [Bool.and_eq_true, decide_eq_true_eq, List.all_eq_true]; exact ⟨hlen, hdig⟩), hval]

theorem dayRepr_no_dash {a : List Char} {n : Nat} (h : dayRepr a n) : '-' ∉ a := by
  rcases h.2.2 with ⟨hd, _⟩ | ⟨ch, rfl, hd⟩
  · exact digitsRepr_no_dash hd
  · intro hc
    rcases List.mem_cons.1 hc with hc | hc
    · exact absurd hc (by decide)
    · rw [List.mem_singleton] at hc
      exact digit_ne_dash (hd.2.1 ch (List.mem_singleton_self ch)) (hc ▸ rfl)

theorem parseDMY_iff (cs : List Char) (dt : Date) :
    parseDMY cs = some dt ↔ isDMY cs dt ∧ inTsBounds dt = true := by
  constructor
  · intro h
    have hjoin := joinSep_splitOnChar '-' cs
    unfold parseDMY at h
    cases hparts : splitOnChar '-' cs with
    | nil => exact absurd hparts (splitOnChar_ne_nil '-' cs)
    | cons a tail =>
      rw [hparts] at h hjoin
      cases tail with
      | nil => simp at h
      | cons b tail2 =>
        cases tail2 with
        | nil => simp at h
        | cons d tail3 =>
          cases tail3 with
          | cons e rest => simp at h
          | nil =>
            simp only at h
            cases hday : dayComp a with
            | none => rw [hday] at h; simp at h
            | some dd =>
              cases hmon : monComp b with
              | none => rw [hday, hmon] at h; simp at h
              | some mm =>
                cases hyear : yearComp d with
                | none => rw [hday, hmon, hyear] at h; simp at h
                | some yy =>
                  rw [hday, hmon, hyear] at h
                  simp only at h
                  split at h
                  next hcond =>
                    obtain rfl : (⟨yy, mm, dd⟩ : Date) = dt := by injection h
                    simp only [Bool.and_eq_true] at hcond
                    refine ⟨⟨a, b, d, ?_, (dayComp_iff a dd).1 hday,
                      (monComp_iff b mm).1 hmon, (yearComp_iff d yy).1 hyear,
                      hcond.1⟩, hcond.2⟩
                    simp only [joinSep] at hjoin
                    exact hjoin.symm
                  next => simp at h
  · rintro ⟨⟨a, b, d, rfl, hday, hmon, hyear, hvalid⟩, hb⟩
    have hna : '-' ∉ a := dayRepr_no_dash hday
    have hnb : '-' ∉ b := digitsRepr_no_dash hmon.2.2.1
    have hnd : '-' ∉ d := digitsRepr_no_dash hyear.1
    have hsplit : splitOnChar '-' (a ++ '-' :: (b ++ '-' :: d)) = [a, b, d] := by
      rw [splitOnChar_append _ hna, splitOnChar_append _ hnb, splitOnChar_no_sep hnd]
    unfold parseDMY
    rw [hsplit]
    simp only
    rw [(dayComp_iff a dt.day).2 hday, (monComp_iff b dt.month).2 hmon,
      (yearComp_iff d dt.year).2 hyear]
    simp only
    rw [if_pos (by simp only [Bool.and_eq_true]; exact ⟨hvalid, hb⟩)]

/-- **C1, counterexample.** The claim says every value matching the
day-month-year format parses to the corresponding date. The string
"01-01-1500" matches the format and names the valid calendar date
1500-01-01, yet the parsing of the Update columns coerces it to a
missing value, because the date lies outside the range representable by
pandas nanosecond timestamps. -/
theorem c1_format_match_coerced_to_nat :
    isDMY "01-01-1500".toList ⟨1500, 1, 1⟩ ∧
      parseCell (some (.str "01-01-1500".toList)) = none := by
  constructor
  · exact ⟨"01".toList, "01".toList, "1500".toList, by decide,
      ⟨by decide, by decide, Or.inl ⟨⟨by decide, by decide, by decide⟩, by decide⟩⟩,
      ⟨by decide, by decide, ⟨by decide, by decide, by decide⟩, by decide⟩,
      ⟨⟨by decide, by decide, by decide⟩, by decide⟩, by decide⟩
  · decide

/-- **C1 (amended).** Date parsing of the five Update_i columns is
total: `parseCell` is a total function into `Option Date` (so no input
raises), and it returns a date exactly when the cell is a string
matching the day-month-year format '%d-%m-%Y' that names a valid
calendar date within the pandas timestamp range, in which case the
returned date is the one the string denotes; every other value — a
missing key, a non-string, a string not matching the format, or a
matching string out of timestamp range — is coerced to the missing value
NaT (`none`). -/
theorem c1_update_parsing_total (v : Option CellVal) (dt : Date) :
    parseCell v = some dt ↔
      ∃ cs, v = some (CellVal.str cs) ∧ isDMY cs dt ∧ inTsBounds dt = true := by
  cases v with
  | none =>
    simp [parseCell]
  | some cv =>
    cases cv with
    | other => simp [parseCell]
    | str cs =>
      simp only [parseCell]
      rw [parseDMY_iff]
      constructor
      · rintro ⟨h1, h2⟩
        exact ⟨cs, rfl, h1, h2⟩
      · rintro ⟨cs2, hcs, h1, h2⟩
        obtain rfl : cs2 = cs := by
          injection hcs with h
          injection h with h'
          exact h'.symm
        exact ⟨h1, h2⟩

/-- **C2.** Filtering by category is a pure function of the selected
category set: a row is in the filtered subset computed by
`update_dashboard` iff it is a row of the loaded table whose NAMOBJ
value is a member of the selected list, and selections with the same
members produce the same filtered subset (in particular, equal selected
lists do). -/
theorem c2_filter_is_pure_membership (df : List Row) (sel sel2 : List (List Char)) (r : Row) :
    (r ∈ filterByNamobj df sel ↔ r ∈ df ∧ r.NAMOBJ ∈ sel) ∧
    ((∀ x, x ∈ sel ↔ x ∈ sel2) → filterByNamobj df sel = filterByNamobj df sel2) := by
  constructor
  · simp [filterByNamobj, List.mem_filter]
  · intro h
    unfold filterByNamobj
    apply List.filter_congr
    intro a _
    exact decide_eq_decide.2 (h a.NAMOBJ)

/-- **C2, witness.** The characterization applied to a concrete table
and selection. -/
theorem c2_filter_is_pure_membership_witness :
    (rowA ∈ filterByNamobj dfSample ["A".toList, "B".toList] ↔
      rowA ∈ dfSample ∧ rowA.NAMOBJ ∈ ["A".toList, "B".toList]) ∧
    filterByNamobj dfSample ["A".toList, "B".toList]
      = filterByNamobj dfSample ["A".toList, "B".toList] :=
  ⟨(c2_filter_is_pure_membership dfSample ["A".toList, "B".toList]
      ["A".toList, "B".toList] rowA).1,
    (c2_filter_is_pure_membership dfSample ["A".toList, "B".toList]
      ["A".toList, "B".toList] rowA).2 (fun _ => Iff.rfl)⟩

/-! ### Helper lemmas: group-by counts -/

theorem sum_indicator_count {K : Type} [DecidableEq K] (a : K) (u : List K) :
    (u.map (fun k => if a = k then 1 else 0)).sum = u.count a := by
  induction u with
  | nil => simp
  | cons x xs ih =>
    simp only [List.map_cons, List.sum_cons, ih, List.count_cons, beq_iff_eq]
    rcases eq_or_ne a x with rfl | hx
    · simp [Nat.add_comm]
    · simp [hx, Ne.symm hx]

theorem sum_count_dedup {K : Type} [DecidableEq K] (l : List K) :
    (l.dedup.map (fun k => l.count k)).sum = l.length := by
  induction l with
  | nil => simp
  | cons a t ih =>
    have hsum : ∀ (u : List K),
        (u.map (fun k => List.count k t + if a = k then 1 else 0)).sum
          = (u.map (fun k => List.count k t)).sum
            + (u.map (fun k => if a = k then 1 else 0)).sum := by
      intro u
      induction u with
      | nil => simp
      | cons x xs ihu =>
        simp only [List.map_cons, List.sum_cons, ihu]
        omega
    by_cases h : a ∈ t
    · rw [List.dedup_cons_of_mem h]
      simp only [List.count_cons, beq_iff_eq]
      rw [hsum, ih, sum_indicator_count, List.count_dedup, if_pos h]
      simp
    · rw [List.dedup_cons_of_not_mem h]
      simp only [List.map_cons, List.sum_cons, List.count_cons, beq_iff_eq]
      rw [hsum, ih, sum_indicator_count, List.count_dedup, if_neg h,
        List.count_eq_zero_of_not_mem h]
      simp
      omega

theorem countsBy_sum {K : Type} [DecidableEq K] (keys : List K) :
    ((countsBy keys).map Prod.snd).sum = keys.length := by
  unfold countsBy
  rw [List.map_map]
  have : (Prod.snd ∘ fun k => (k, keys.count k)) = fun k => keys.count k := rfl
  rw [this]
  exact sum_count_dedup keys

/-- **C3.** Group-by counts sum to the filtered row count: the
per-(NAMOBJ, Status) counts of the summary bar chart sum to the number
of rows of the category-filtered subset, and the per-NAMOBJ counts of a
stage bar chart sum to the number of rows of that stage's date-filtered
subset. -/
theorem c3_group_counts_sum_to_length (st : List Row) (sel : List (List Char))
    (stage : Nat) (v : Int) (dsel : Date)
    (hne : (stageRows st stage).isEmpty = false)
    (hd : dateSelected (uniqueSortedDates st stage) v = some dsel) :
    (((update_dashboard st sel).2.statusBar).map Prod.snd).sum
        = (filterByNamobj st sel).length ∧
    ∃ o, (update_map_and_bar st stage v).2 = StageRes.ok o ∧
      (o.bar.map Prod.snd).sum = (filterUpTo st stage dsel).length := by
  constructor
  · simp only [update_dashboard]
    rw [countsBy_sum, List.length_map]
  · refine ⟨⟨0, ((uniqueSortedDates st stage).length : Int) - 1,
      (uniqueSortedDates st stage).enum.map (fun p => (p.1, renderDMY p.2)),
      ((filterUpTo st stage dsel).map Row.NAMOBJ).dedup.map (fun nm =>
        (nm, (filterUpTo st stage dsel).filter (fun r => decide (r.NAMOBJ = nm)))),
      countsBy ((filterUpTo st stage dsel).map Row.NAMOBJ)⟩, ?_, ?_⟩
    · simp only [update_map_and_bar, hne, Bool.false_eq_true, if_false, hd]
    · rw [countsBy_sum, List.length_map]

/-- **C3, witness.** The count sums on a concrete table, selection and
slider position. -/
theorem c3_group_counts_sum_to_length_witness :
    (((update_dashboard dfSample ["A".toList]).2.statusBar).map Prod.snd).sum
        = (filterByNamobj dfSample ["A".toList]).length ∧
    ∃ o, (update_map_and_bar dfSample 1 0).2 = StageRes.ok o ∧
      (o.bar.map Prod.snd).sum = (filterUpTo dfSample 1 ⟨2021, 3, 5⟩).length :=
  c3_group_counts_sum_to_length dfSample ["A".toList] 1 0 ⟨2021, 3, 5⟩
    (by decide) (by decide)

/-! ### Helper lemmas: URL routing -/

theorem listStartsWith_iff (p : List Char) : ∀ (l : List Char),
    listStartsWith p l = true ↔ ∃ r, l = p ++ r := by
  induction p with
  | nil =>
    intro l
    constructor
    · intro _
      exact ⟨l, (List.nil_append l).symm⟩
    · intro _
      rfl
  | cons x xs ih =>
    intro l
    cases l with
    | nil =>
      simp only [listStartsWith]
      constructor
      · intro h; exact absurd h (by simp)
      · rintro ⟨r, hr⟩; exact absurd hr (by simp)
    | cons y ys =>
      simp only [listStartsWith, Bool.and_eq_true, decide_eq_true_eq, ih ys]
      constructor
      · rintro ⟨rfl, r, rfl⟩
        exact ⟨r, rfl⟩
      · rintro ⟨r, hr⟩
        injection hr with h1 h2
        exact ⟨h1.symm, r, h2⟩

/-- The first piece of a split is the text before the first separator. -/
theorem splitOnChar_head (c : Char) (l : List Char) :
    ∃ ps, splitOnChar c l = (l.takeWhile (fun ch => ch ≠ c)) :: ps := by
  induction l with
  | nil => exact ⟨[], rfl⟩
  | cons x xs ih =>
    by_cases hx : x = c
    · subst hx
      rw [splitOnChar_cons_sep]
      refine ⟨splitOnChar x xs, ?_⟩
      simp [List.takeWhile]
    · obtain ⟨p, ps, hps⟩ := List.exists_cons_of_ne_nil (splitOnChar_ne_nil c xs)
      obtain ⟨ps2, hih⟩ := ih
      injection hps.symm.trans hih with hp hrest
      rw [splitOnChar_cons_ne xs hx hps]
      refine ⟨ps, ?_⟩
      rw [List.takeWhile_cons_of_pos (by simp [hx]), ← hp]

/-- **C4, counterexample.** The claim says that for "/stage-<i>" with
integer i, `display_page` returns the stage layout for i. For i = -1
the path is "/stage--1"; splitting it on every dash makes piece 1 the
empty string, `int("")` raises ValueError, and the callback returns the
"Invalid Page" heading instead of the stage layout. -/
theorem c4_stage_route_counterexample :
    display_page ("/stage-".toList ++ intChars (-1)) = PageOut.invalidPage ∧
      PageOut.invalidPage ≠ PageOut.stageLayout (-1) := by
  have h1 : natChars 1 = ['1'] := by
    rw [natChars]
    rfl
  have h2 : intChars (-1) = ['-', '1'] := by
    rw [intChars, if_pos (by decide)]
    norm_num
    rw [h1]
  rw [h2]
  exact ⟨by decide, by decide⟩

/-- **C4 (amended).** Routing in `display_page`: "/" and "/summary"
return the summary layout; "/stage-<i>" for a nonnegative integer i
(rendered in decimal) returns the stage layout for i; more generally,
for every path starting with "/stage-", the text between the first and
second dash decides the result: when it parses as an integer i the
stage layout for i is returned (so "/stage-3-x" returns stage 3), and
when it does not ("/stage--1", "/stage-x") the "Invalid Page" heading
is returned; every remaining path returns the "404 - Page Not Found"
heading. -/
theorem c4_display_page_routing (p : List Char) (n : Nat) :
    display_page "/".toList = PageOut.summary ∧
    display_page "/summary".toList = PageOut.summary ∧
    display_page ("/stage-".toList ++ natChars n) = PageOut.stageLayout (n : Int) ∧
    (∀ rest, p = "/stage-".toList ++ rest →
      (∀ i : Int, pyInt (rest.takeWhile (fun ch => ch ≠ '-')) = some i →
        display_page p = PageOut.stageLayout i) ∧
      (pyInt (rest.takeWhile (fun ch => ch ≠ '-')) = none →
        display_page p = PageOut.invalidPage)) ∧
    (p ≠ "/".toList → p ≠ "/summary".toList →
      listStartsWith "/stage-".toList p = false →
      display_page p = PageOut.notFound) := by
  obtain ⟨hnn, hdig, hval⟩ := natChars_spec n
  refine ⟨by decide, by decide, ?_, ?_, ?_⟩
  · have hne1 : "/stage-".toList ++ natChars n ≠ "/".toList := by
      intro h
      have h2 := congrArg (fun l => List.get? l 2) h
      simp only at h2
      rw [List.get?_append (by decide)] at h2
      exact absurd h2 (by decide)
    have hne2 : "/stage-".toList ++ natChars n ≠ "/summary".toList := by
      intro h
      have h2 := congrArg (fun l => List.get? l 2) h
      simp only at h2
      rw [List.get?_append (by decide)] at h2
      exact absurd h2 (by decide)
    have hss : listStartsWith "/stage-".toList ("/stage-".toList ++ natChars n) = true :=
      (listStartsWith_iff _ _).2 ⟨natChars n, rfl⟩
    have hnd : '-' ∉ natChars n := fun hc => digit_ne_dash (hdig '-' hc) rfl
    have hdecomp : "/stage-".toList ++ natChars n
        = "/stage".toList ++ '-' :: natChars n := rfl
    simp only [display_page]
    rw [if_neg (by rintro (h | h); exact hne1 h; exact hne2 h), if_pos hss]
    rw [hdecomp, splitOnChar_append _ (by decide), splitOnChar_no_sep hnd]
    simp only [List.get?]
    rw [pyInt_of_digits _ hnn hdig, hval]
  · rintro rest rfl
    have hne1 : "/stage-".toList ++ rest ≠ "/".toList := by
      intro h
      have h2 := congrArg (fun l => List.get? l 2) h
      simp only at h2
      rw [List.get?_append (by decide)] at h2
      exact absurd h2 (by decide)
    have hne2 : "/stage-".toList ++ rest ≠ "/summary".toList := by
      intro h
      have h2 := congrArg (fun l => List.get? l 2) h
      simp only at h2
      rw [List.get?_append (by decide)] at h2
      exact absurd h2 (by decide)
    have hss : listStartsWith "/stage-".toList ("/stage-".toList ++ rest) = true :=
      (listStartsWith_iff _ _).2 ⟨rest, rfl⟩
    have hdecomp : "/stage-".toList ++ rest = "/stage".toList ++ '-' :: rest := rfl
    obtain ⟨ps, hps⟩ := splitOnChar_head '-' rest
    constructor
    · intro i hi
      simp only [display_page]
      rw [if_neg (by rintro (h | h); exact hne1 h; exact hne2 h), if_pos hss]
      rw [hdecomp, splitOnChar_append _ (by decide), hps]
      simp only [List.get?]
      rw [hi]
    · intro hz
      simp only [display_page]
      rw [if_neg (by rintro (h | h); exact hne1 h; exact hne2 h), if_pos hss]
      rw [hdecomp, splitOnChar_append _ (by decide), hps]
      simp only [List.get?]
      rw [hz]
  · intro h1 h2 h3
    simp only [display_page]
    rw [if_neg (by rintro (h | h); exact h1 h; exact h2 h), if_neg (by
      intro hc
      rw [h3] at hc
      exact absurd hc (by simp))]

/-- **C4, witness.** The routing applied to concrete paths: a stage
path with a trailing segment, a stage path whose piece is not an
integer, and an unrelated path. -/
theorem c4_display_page_routing_witness :
    display_page "/stage-3-x".toList = PageOut.stageLayout 3 ∧
    display_page "/stage-x".toList = PageOut.invalidPage ∧
    display_page "/other".toList = PageOut.notFound :=
  ⟨((c4_display_page_routing "/stage-3-x".toList 3).2.2.2.1 "3-x".toList rfl).1
      3 (by decide),
    ((c4_display_page_routing "/stage-x".toList 3).2.2.2.1 "x".toList rfl).2
      (by decide),
    (c4_display_page_routing "/other".toList 3).2.2.2.2 (by decide) (by decide)
      (by decide)⟩

/-- **C5.** When the category-filtered selection is empty — exactly
when no row's NAMOBJ is in the selected list — the summary map falls
back to the default center (latitude -7.9, longitude 110.4); when it is
non-empty the center is the mean latitude and mean longitude of the
filtered rows. -/
theorem c5_center_default_or_mean (df : List Row) (sel : List (List Char)) :
    ((∀ r ∈ df, r.NAMOBJ ∉ sel) →
      (update_dashboard df sel).2.center = (-79 / 10, 1104 / 10)) ∧
    ((∃ r ∈ df, r.NAMOBJ ∈ sel) →
      (update_dashboard df sel).2.center
        = (((filterByNamobj df sel).map Row.lat).sum
            / ((filterByNamobj df sel).length : ℚ),
          ((filterByNamobj df sel).map Row.lon).sum
            / ((filterByNamobj df sel).length : ℚ))) := by
  constructor
  · intro h
    have hemp : filterByNamobj df sel = [] := by
      rw [filterByNamobj, List.filter_eq_nil]
      intro a ha
      simp [h a ha]
    simp only [update_dashboard, centerOf, hemp]
    simp
  · rintro ⟨r, hr, hrsel⟩
    have hne : filterByNamobj df sel ≠ [] := by
      intro h0
      have hmem : r ∈ filterByNamobj df sel :=
        List.mem_filter.2 ⟨hr, by simp [hrsel]⟩
      rw [h0] at hmem
      simp at hmem
    simp only [update_dashboard, centerOf]
    rw [if_neg (by simpa [List.isEmpty_iff] using hne)]
    simp [meanQ, List.length_map]

/-- **C5, witness.** The two center branches on concrete selections. -/
theorem c5_center_default_or_mean_witness :
    (update_dashboard dfSample []).2.center = (-79 / 10, 1104 / 10) ∧
    (update_dashboard dfSample ["A".toList]).2.center
      = (((filterByNamobj dfSample ["A".toList]).map Row.lat).sum
          / ((filterByNamobj dfSample ["A".toList]).length : ℚ),
        ((filterByNamobj dfSample ["A".toList]).map Row.lon).sum
          / ((filterByNamobj dfSample ["A".toList]).length : ℚ)) :=
  ⟨(c5_center_default_or_mean dfSample []).1 (by decide),
    (c5_center_default_or_mean dfSample ["A".toList]).2
      ⟨rowA, by decide, by decide⟩⟩

/-- **C6.** The loaded table is read-only after startup: in
state-passing form, `update_dashboard` and every stage's
`update_map_and_bar` return the process-wide table exactly as received
for every input, and the chart outputs computed after an interleaved
call of the other callback are the same as those computed directly, the
derived views being recomputed from the unchanged table on each
invocation. -/
theorem c6_callbacks_leave_table_unchanged (st : List Row)
    (sel : List (List Char)) (stage : Nat) (v : Int) :
    (update_dashboard st sel).1 = st ∧
    (update_map_and_bar st stage v).1 = st ∧
    (update_dashboard ((update_map_and_bar st stage v).1) sel).2
      = (update_dashboard st sel).2 ∧
    (update_map_and_bar ((update_dashboard st sel).1) stage v).2
      = (update_map_and_bar st stage v).2 := by
  have h2 : (update_map_and_bar st stage v).1 = st := by
    unfold update_map_and_bar
    dsimp only
    split
    · rfl
    · split <;> rfl
  exact ⟨rfl, h2, by rw [h2], rfl⟩

/-- **C7.** The loading step produces exactly one table row per feature
of the input file, whose attributes are the feature's longitude and
latitude, its NAMOBJ (defaulting to "Unknown" when absent), its Status
(defaulting to 0 when absent) and the five parsed milestone dates. -/
theorem c7_one_row_per_feature (fs : List Feature) :
    (df_points fs).length = fs.length ∧ df_points fs = fs.map specRowOfFeature := by
  have h : df_points fs = fs.map specRowOfFeature := by
    unfold df_points pointsOf
    rw [List.map_map]
    rfl
  exact ⟨by rw [h, List.length_map], h⟩

/-! ### Helper lemmas: column max/min and the color-map construction -/

theorem foldl_max_spec (l : List Int) : ∀ (a : Int),
    a ≤ l.foldl max a ∧ l.foldl max a ∈ a :: l ∧ ∀ y ∈ l, y ≤ l.foldl max a := by
  induction l with
  | nil =>
    intro a
    exact ⟨le_refl a, by simp, by simp⟩
  | cons x xs ih =>
    intro a
    simp only [List.foldl_cons]
    obtain ⟨h1, h2, h3⟩ := ih (max a x)
    refine ⟨le_trans (le_max_left a x) h1, ?_, ?_⟩
    · rcases List.mem_cons.1 h2 with h | h
      · rw [h]
        rcases max_choice a x with hm | hm <;> rw [hm]
        · exact List.mem_cons_self _ _
        · exact List.mem_cons_of_mem _ (List.mem_cons_self _ _)
      · exact List.mem_cons_of_mem _ (List.mem_cons_of_mem _ h)
    · intro y hy
      rcases List.mem_cons.1 hy with rfl | h
      · exact le_trans (le_max_right a y) h1
      · exact h3 y h

theorem foldl_min_spec (l : List Int) : ∀ (a : Int),
    l.foldl min a ≤ a ∧ l.foldl min a ∈ a :: l ∧ ∀ y ∈ l, l.foldl min a ≤ y := by
  induction l with
  | nil =>
    intro a
    exact ⟨le_refl a, by simp, by simp⟩
  | cons x xs ih =>
    intro a
    simp only [List.foldl_cons]
    obtain ⟨h1, h2, h3⟩ := ih (min a x)
    refine ⟨le_trans h1 (min_le_left a x), ?_, ?_⟩
    · rcases List.mem_cons.1 h2 with h | h
      · rw [h]
        rcases min_choice a x with hm | hm <;> rw [hm]
        · exact List.mem_cons_self _ _
        · exact List.mem_cons_of_mem _ (List.mem_cons_self _ _)
      · exact List.mem_cons_of_mem _ (List.mem_cons_of_mem _ h)
    · intro y hy
      rcases List.mem_cons.1 hy with rfl | h
      · exact le_trans h1 (min_le_right a y)
      · exact h3 y h

theorem listMaxI_bounds {l : List Int} {x : Int} (h : listMaxI l = some x) :
    x ∈ l ∧ ∀ y ∈ l, y ≤ x := by
  cases l with
  | nil => simp [listMaxI] at h
  | cons s ss =>
    obtain rfl : ss.foldl max s = x := by injection h
    obtain ⟨h1, h2, h3⟩ := foldl_max_spec ss s
    refine ⟨h2, ?_⟩
    intro y hy
    rcases List.mem_cons.1 hy with hh | hh
    · exact hh ▸ h1
    · exact h3 y hh

theorem listMinI_bounds {l : List Int} {x : Int} (h : listMinI l = some x) :
    x ∈ l ∧ ∀ y ∈ l, x ≤ y := by
  cases l with
  | nil => simp [listMinI] at h
  | cons s ss =>
    obtain rfl : ss.foldl min s = x := by injection h
    obtain ⟨h1, h2, h3⟩ := foldl_min_spec ss s
    refine ⟨h2, ?_⟩
    intro y hy
    rcases List.mem_cons.1 hy with hh | hh
    · exact hh ▸ h1
    · exact h3 y hh

theorem collectColors_ok (V : List ℚ) : ∀ (L : List Int),
    (∀ s ∈ L, (pyIndex V s).isSome = true) →
    ∃ m, collectColors V L = Except.ok m ∧ ∀ s ∈ L, ∃ c, (s, c) ∈ m := by
  intro L
  induction L with
  | nil =>
    intro _
    exact ⟨[], rfl, by simp⟩
  | cons s rest ih =>
    intro h
    obtain ⟨c, hc⟩ := Option.isSome_iff_exists.1 (h s (List.mem_cons_self s rest))
    obtain ⟨m, hm, hmem⟩ := ih (fun t ht => h t (List.mem_cons_of_mem s ht))
    refine ⟨(s, c) :: m, by simp [collectColors, hc, hm], ?_⟩
    intro t ht
    rcases List.mem_cons.1 ht with h1 | h1
    · subst h1
      exact ⟨c, List.mem_cons_self _ _⟩
    · obtain ⟨c2, hc2⟩ := hmem t h1
      exact ⟨c2, List.mem_cons_of_mem _ hc2⟩

theorem collectColors_err (V : List ℚ) : ∀ (L : List Int),
    (∃ s ∈ L, pyIndex V s = none) →
    collectColors V L = Except.error PyErr.indexErr := by
  intro L
  induction L with
  | nil =>
    rintro ⟨s, hs, _⟩
    simp at hs
  | cons t rest ih =>
    rintro ⟨s, hs, hnone⟩
    rcases List.mem_cons.1 hs with h1 | h1
    · subst h1
      simp [collectColors, hnone]
    · cases hc : pyIndex V t with
      | none => simp [collectColors, hc]
      | some c => simp [collectColors, hc, ih ⟨s, h1, hnone⟩]

/-- **C8, counterexample.** The claim says the construction succeeds on
any non-empty table with at least two distinct Status values. On a table
with statuses 1 and 2 the sampled list has two entries indexed 0 and 1,
so `viridis_colors[2]` raises IndexError. -/
theorem c8_positive_min_raises :
    (∃ r1 ∈ dfPos, ∃ r2 ∈ dfPos, r1.Status ≠ r2.Status) ∧
      buildStatusColorMap dfPos = Except.error PyErr.indexErr := by
  constructor
  · exact ⟨rowA, by decide, rowB, by decide, by decide⟩
  · rfl

/-- **C8 (amended).** `status_color_map` construction: with the table
non-empty (so that a max `mx` and min `mn` of the Status column exist),
all rows share one Status value exactly when `mx = mn`, and then the
division-by-zero branch is reached; when the statuses are not all equal
the construction succeeds iff the statuses straddle zero suitably: if
`mn ≤ 0 ≤ mx` (in fact `-1 ≤ mx` suffices, by Python negative
indexing) it succeeds and assigns a color to every status in
`[mn, mx]`, while if `0 < mn` the comprehension raises IndexError. -/
theorem c8_status_color_map (df : List Row) (mx mn : Int)
    (hmx : listMaxI (df.map Row.Status) = some mx)
    (hmn : listMinI (df.map Row.Status) = some mn) :
    ((∀ r1 ∈ df, ∀ r2 ∈ df, r1.Status = r2.Status) ↔ mx = mn) ∧
    (mx = mn → buildStatusColorMap df = Except.error PyErr.zeroDiv) ∧
    (mx ≠ mn → mn ≤ 0 → -1 ≤ mx →
      ∃ m, buildStatusColorMap df = Except.ok m ∧
        ∀ s : Int, mn ≤ s → s ≤ mx → ∃ c, (s, c) ∈ m) ∧
    (mx ≠ mn → 0 < mn → buildStatusColorMap df = Except.error PyErr.indexErr) := by
  obtain ⟨hmxmem, hmxub⟩ := listMaxI_bounds hmx
  obtain ⟨hmnmem, hmnlb⟩ := listMinI_bounds hmn
  have hmnmx : mn ≤ mx := hmxub mn hmnmem
  have hbuild : buildStatusColorMap df
      = (if mx - mn = 0 then Except.error PyErr.zeroDiv
        else collectColors
          ((List.range ((mx - mn).toNat + 1)).map (fun i : Nat => (i : ℚ) / ((mx - mn : Int) : ℚ)))
          ((List.range ((mx - mn).toNat + 1)).map (fun k : Nat => mn + (k : Int)))) := by
    unfold buildStatusColorMap
    rw [hmx, hmn]
  have hVlen : ((List.range ((mx - mn).toNat + 1)).map
      (fun i : Nat => (i : ℚ) / ((mx - mn : Int) : ℚ))).length = (mx - mn).toNat + 1 := by
    simp
  have hmemL : ∀ s : Int,
      s ∈ (List.range ((mx - mn).toNat + 1)).map (fun k : Nat => mn + (k : Int)) ↔
        mn ≤ s ∧ s ≤ mx := by
    intro s
    simp only [List.mem_map, List.mem_range]
    constructor
    · rintro ⟨k, hk, rfl⟩
      omega
    · intro ⟨h1, h2⟩
      exact ⟨(s - mn).toNat, by omega, by omega⟩
  refine ⟨?_, ?_, ?_, ?_⟩
  · constructor
    · intro h
      obtain ⟨r1, hr1, hs1⟩ := List.mem_map.1 hmxmem
      obtain ⟨r2, hr2, hs2⟩ := List.mem_map.1 hmnmem
      rw [← hs1, ← hs2]
      exact h r1 hr1 r2 hr2
    · intro h r1 hr1 r2 hr2
      have b1 := hmxub _ (List.mem_map_of_mem Row.Status hr1)
      have b2 := hmnlb _ (List.mem_map_of_mem Row.Status hr1)
      have b3 := hmxub _ (List.mem_map_of_mem Row.Status hr2)
      have b4 := hmnlb _ (List.mem_map_of_mem Row.Status hr2)
      omega
  · intro h
    rw [hbuild, if_pos (by omega)]
  · intro hne h0 hm1
    rw [hbuild, if_neg (by omega)]
    obtain ⟨m, hm, hmem⟩ := collectColors_ok _ _ (by
      intro s hs
      obtain ⟨h1, h2⟩ := (hmemL s).1 hs
      unfold pyIndex
      by_cases hpos : (0 : Int) ≤ s
      · rw [if_pos hpos]
        have hlt : s.toNat < ((List.range ((mx - mn).toNat + 1)).map
            (fun i : Nat => (i : ℚ) / ((mx - mn : Int) : ℚ))).length := by
          rw [hVlen]
          omega
        rw [List.get?_eq_get hlt]
        rfl
      · rw [if_neg hpos, if_pos (by rw [hVlen]; omega)]
        have hlt : ((List.range ((mx - mn).toNat + 1)).map
              (fun i : Nat => (i : ℚ) / ((mx - mn : Int) : ℚ))).length - (-s).toNat
            < ((List.range ((mx - mn).toNat + 1)).map
              (fun i : Nat => (i : ℚ) / ((mx - mn : Int) : ℚ))).length := by
          rw [hVlen]
          omega
        rw [List.get?_eq_get hlt]
        rfl)
    exact ⟨m, hm, fun s h1 h2 => hmem s ((hmemL s).2 ⟨h1, h2⟩)⟩
  · intro hne h0
    rw [hbuild, if_neg (by omega)]
    apply collectColors_err
    refine ⟨mx, (hmemL mx).2 ⟨hmnmx, le_refl mx⟩, ?_⟩
    unfold pyIndex
    rw [if_pos (by omega)]
    apply List.get?_eq_none.2
    rw [hVlen]
    omega

/-- **C8, witness.** The success branch on a concrete table with
statuses 0 and 1. -/
theorem c8_status_color_map_witness :
    ∃ m, buildStatusColorMap dfMix = Except.ok m ∧
      ∀ s : Int, 0 ≤ s → s ≤ 1 → ∃ c, (s, c) ∈ m :=
  (c8_status_color_map dfMix 1 0 (by decide) (by decide)).2.2.1
    (by decide) (by decide) (by decide)

/-! ### Helper lemmas: the stage slider and the date filter -/

theorem uniqueSortedDates_sorted (df : List Row) (stage : Nat) :
    List.Sorted dateLE (uniqueSortedDates df stage) :=
  List.sorted_insertionSort dateLE _

theorem dateSelected_nil (u : Int) : dateSelected [] u = none := by
  unfold dateSelected pyIndex
  split_ifs <;> simp

/-- Where the clamped selection lands: at index `u` when in range, at
the last index otherwise. -/
theorem dateSelected_get? (L : List Date) (u : Nat) (du : Date)
    (hdu : dateSelected L (u : Int) = some du) :
    L.get? (min u (L.length - 1)) = some du := by
  have hne : L ≠ [] := by
    intro h0
    rw [h0, dateSelected_nil] at hdu
    exact absurd hdu (by simp)
  have hlen : 0 < L.length := List.length_pos.2 hne
  unfold dateSelected pyIndex at hdu
  by_cases hu : u < L.length
  · rw [if_pos (by exact_mod_cast hu), if_pos (by positivity)] at hdu
    rw [min_eq_left (by omega)]
    simpa using hdu
  · rw [if_neg (by omega), if_neg (by decide),
      if_pos (by simp; omega)] at hdu
    rw [min_eq_right (by omega)]
    simpa using hdu

theorem filterUpTo_mono (df : List Row) (stage : Nat) {a b : Date}
    (hab : dateLE a b) :
    (filterUpTo df stage a).Sublist (filterUpTo df stage b) := by
  unfold filterUpTo
  apply List.monotone_filter_right
  intro r hr
  cases hc : updCol stage r with
  | none =>
    rw [hc] at hr
    simp at hr
  | some d2 =>
    rw [hc] at hr
    simp only [decide_eq_true_eq] at hr ⊢
    exact Trans.trans hr hab

/-- **C9.** Stage slider index selection is clamped: for every
non-negative slider value, the selection succeeds (no IndexError); a
value below the number of unique completion dates selects the date at
that index of the sorted unique dates, and a value at or above it
selects the latest (maximum) date. -/
theorem c9_slider_index_clamped (df : List Row) (stage : Nat) (v : Nat)
    (hne : uniqueSortedDates df stage ≠ []) :
    ∃ dt, dateSelected (uniqueSortedDates df stage) (v : Int) = some dt ∧
      (v < (uniqueSortedDates df stage).length →
        (uniqueSortedDates df stage).get? v = some dt) ∧
      ((uniqueSortedDates df stage).length ≤ v →
        dt ∈ uniqueSortedDates df stage ∧
          ∀ x ∈ uniqueSortedDates df stage, dateLE x dt) := by
  set L := uniqueSortedDates df stage with hL
  have hlen : 0 < L.length := List.length_pos.2 hne
  by_cases hv : v < L.length
  · refine ⟨L.get ⟨v, hv⟩, ?_, fun _ => List.get?_eq_get hv, fun hge => absurd hge (by omega)⟩
    unfold dateSelected pyIndex
    rw [if_pos (by exact_mod_cast hv), if_pos (by positivity)]
    simpa using List.get?_eq_get hv
  · push_neg at hv
    have hlast : L.length - 1 < L.length := by omega
    refine ⟨L.get ⟨L.length - 1, hlast⟩, ?_, fun hlt => absurd hlt (by omega), fun _ => ?_⟩
    · unfold dateSelected pyIndex
      rw [if_neg (by omega), if_neg (by decide), if_pos (by simp; omega)]
      simpa using List.get?_eq_get hlast
    · refine ⟨List.get_mem L _ _, ?_⟩
      intro x hx
      obtain ⟨i, rfl⟩ := List.mem_iff_get.1 hx
      exact (uniqueSortedDates_sorted df stage).rel_get_of_le
        (show i ≤ ⟨L.length - 1, hlast⟩ from by
          rcases i with ⟨iv, hiv⟩
          exact Fin.mk_le_mk.2 (by omega))

/-- **C9, witness.** An out-of-range slider value on a concrete table is
clamped to the latest date. -/
theorem c9_slider_index_clamped_witness :
    ∃ dt, dateSelected (uniqueSortedDates dfSample 1) ((5 : Nat) : Int) = some dt ∧
      ((5 : Nat) < (uniqueSortedDates dfSample 1).length →
        (uniqueSortedDates dfSample 1).get? 5 = some dt) ∧
      ((uniqueSortedDates dfSample 1).length ≤ 5 →
        dt ∈ uniqueSortedDates dfSample 1 ∧
          ∀ x ∈ uniqueSortedDates dfSample 1, dateLE x dt) :=
  c9_slider_index_clamped dfSample 1 5 (by decide)

/-- **C10.** Stage date filtering is monotone: for dates d1 ≤ d2 the
rows with completion date at most d1 form a sublist of those with
completion date at most d2 (so membership and counts are monotone), and
the per-stage point count is non-decreasing in the slider index. -/
theorem c10_date_filter_monotone (df : List Row) (stage : Nat)
    (d1 d2 dv dw : Date) (v w : Nat)
    (h12 : dateLE d1 d2) (hvw : v ≤ w)
    (hv : dateSelected (uniqueSortedDates df stage) (v : Int) = some dv)
    (hw : dateSelected (uniqueSortedDates df stage) (w : Int) = some dw) :
    (∀ r ∈ filterUpTo df stage d1, r ∈ filterUpTo df stage d2) ∧
    (filterUpTo df stage d1).length ≤ (filterUpTo df stage d2).length ∧
    (filterUpTo df stage dv).length ≤ (filterUpTo df stage dw).length := by
  have hsub := filterUpTo_mono df stage h12
  refine ⟨fun r hr => hsub.subset hr, hsub.length_le, ?_⟩
  set L := uniqueSortedDates df stage with hL
  have hgv := dateSelected_get? L v dv hv
  have hgw := dateSelected_get? L w dw hw
  obtain ⟨hv', hv2⟩ := List.get?_eq_some.1 hgv
  obtain ⟨hw', hw2⟩ := List.get?_eq_some.1 hgw
  have hvd : dateLE dv dw := by
    rw [← hv2, ← hw2]
    exact (uniqueSortedDates_sorted df stage).rel_get_of_le
      (Fin.mk_le_mk.2 (by omega))
  exact (filterUpTo_mono df stage hvd).length_le

/-- **C10, witness.** Monotonicity at concrete dates and slider
positions of a concrete table. -/
theorem c10_date_filter_monotone_witness :
    (∀ r ∈ filterUpTo dfSample 1 ⟨2021, 3, 5⟩,
      r ∈ filterUpTo dfSample 1 ⟨2021, 4, 6⟩) ∧
    (filterUpTo dfSample 1 ⟨2021, 3, 5⟩).length
      ≤ (filterUpTo dfSample 1 ⟨2021, 4, 6⟩).length ∧
    (filterUpTo dfSample 1 ⟨2021, 3, 5⟩).length
      ≤ (filterUpTo dfSample 1 ⟨2021, 4, 6⟩).length :=
  c10_date_filter_monotone dfSample 1 ⟨2021, 3, 5⟩ ⟨2021, 4, 6⟩
    ⟨2021, 3, 5⟩ ⟨2021, 4, 6⟩ 0 1 (by decide) (by decide) (by decide) (by decide)

end DashApp
